import Mathlib

/-!
Shallow embedding of the codegen utility (`xtask/src/codegen.rs`):
comment-block scanning, tagged-block extraction, the file-sync primitive
`update`, the `reformat` pipe and `Location` rendering.

Rust string primitives (`str::lines`, `trim_start`, `starts_with`,
`replace`, slicing) are embedded as executable character-list functions
with the same semantics, so that every definition reduces in the kernel.
File system state is modelled as the optional content of the single
target path (`none` = missing/unreadable); a panic is modelled as
`Option.none` in the result type; the external `rustfmt` process is an
injected function, and `write_file` is modelled on its success path.
-/

namespace Codegen

/-- Embedding of Rust `str::trim_start` (leading whitespace removed). -/
def rust_trim_start (s : String) : String :=
  String.mk (s.data.dropWhile Char.isWhitespace)

/-- Trailing-whitespace removal on a character list. -/
def trim_end_chars (l : List Char) : List Char :=
  (l.reverse.dropWhile Char.isWhitespace).reverse

/-- Embedding of Rust `str::trim` (both ends). -/
def rust_trim (s : String) : String :=
  String.mk (trim_end_chars (s.data.dropWhile Char.isWhitespace))

/-- Embedding of Rust `str::starts_with` on string patterns. -/
def starts_with (s pat : String) : Bool :=
  pat.data.isPrefixOf s.data

/-- Embedding of Rust byte-slicing `s[n..]` where the first `n` bytes are
an ASCII prefix that has just been matched (character drop agrees with
byte drop there). -/
def str_drop (s : String) (n : Nat) : String :=
  String.mk (s.data.drop n)

/-- Split a character list at every newline character; the final segment
is the (possibly empty) tail after the last newline. -/
def split_nl : List Char → List (List Char)
  | [] => [[]]
  | '\n' :: rest => [] :: split_nl rest
  | c :: rest =>
    match split_nl rest with
    | [] => [[c]]
    | l :: ls => (c :: l) :: ls

/-- Remove one trailing carriage return (the `\r` of a `\r\n` line ending). -/
def strip_trailing_cr (l : List Char) : List Char :=
  match l.reverse with
  | '\r' :: rest => rest.reverse
  | _ => l

/-- Embedding of Rust `str::lines`: split at `\n`, strip the `\r` of a
`\r\n` terminator, and drop the empty segment after a final newline. -/
def rust_lines (s : String) : List String :=
  match (split_nl s.data).reverse with
  | [] => []
  | last :: revInit =>
    let init := revInit.reverse.map (fun l => String.mk (strip_trailing_cr l))
    if last.isEmpty then init else init ++ [String.mk last]

/-- Embedding of Rust `s.replace("\r\n", "\n")`: leftmost non-overlapping
replacement of each CRLF pair by a bare LF. -/
def normalize_chars : List Char → List Char
  | '\r' :: '\n' :: rest => '\n' :: normalize_chars rest
  | c :: rest => c :: normalize_chars rest
  | [] => []

/-- `normalize` from the body of `update`: collapse CRLF to LF. -/
def normalize (s : String) : String :=
  String.mk (normalize_chars s.data)

/-- The loop of `do_extract_comment_blocks`: `line_num` is the 0-based
index of the current line, `block` is the pending `(start line, contents)`
accumulator, `res` the emitted blocks. -/
def do_go (allow : Bool) :
    List String → Nat → Nat × List String → List (Nat × List String) →
    List (Nat × List String)
  | [], _, block, res =>
    if block.2 = [] then res else res ++ [block]
  | raw :: rest, line_num, block, res =>
    let line := rust_trim_start raw
    if line = "//" ∧ allow = true then
      do_go allow rest (line_num + 1) (block.1, block.2 ++ [""]) res
    else if starts_with line "// " = true then
      do_go allow rest (line_num + 1) (block.1, block.2 ++ [str_drop line 3]) res
    else
      do_go allow rest (line_num + 1) (line_num + 2, [])
        (if block.2 = [] then res else res ++ [block])

/-- `do_extract_comment_blocks(text, allow_blocks_with_empty_lines)`. -/
def do_extract_comment_blocks (text : String)
    (allow_blocks_with_empty_lines : Bool) : List (Nat × List String) :=
  do_go allow_blocks_with_empty_lines (rust_lines text) 0 (0, []) []

/-- `extract_comment_blocks(text)`: position-free, no continuations. -/
def extract_comment_blocks (text : String) : List (List String) :=
  (do_extract_comment_blocks text false).map (fun p => p.2)

/-- The `CommentBlock` struct. -/
structure CommentBlock where
  id : String
  line : Nat
  contents : List String
deriving DecidableEq

/-- The loop body of `extract_comment_blocks_with_empty_lines`:
`block.remove(0)` panics (`none`) on an empty block; a first line
starting with `tagc` (the `"TAG:"` string) yields a `CommentBlock`
whose id is the trimmed suffix after the tag. -/
def processBlocks (tagc : String) :
    List (Nat × List String) → Option (List CommentBlock)
  | [] => some []
  | (line, block) :: rest =>
    match block with
    | [] => none
    | first :: contents =>
      match processBlocks tagc rest with
      | none => none
      | some tail =>
        if starts_with first tagc = true then
          some ({ id := rust_trim (str_drop first tagc.length),
                  line := line, contents := contents } :: tail)
        else
          some tail

/-- The `assert!(tag.starts_with(char::is_uppercase))` predicate. -/
def tag_starts_uppercase (tag : String) : Bool :=
  match tag.data with
  | [] => false
  | c :: _ => c.isUpper

/-- `extract_comment_blocks_with_empty_lines(tag, text)`; `none` models a
panic (failed tag assertion, or `remove(0)` on an empty block). -/
def extract_comment_blocks_with_empty_lines (tag : String) (text : String) :
    Option (List CommentBlock) :=
  if tag_starts_uppercase tag = true then
    processBlocks (tag ++ ":") (do_extract_comment_blocks text true)
  else
    none

/-- The `Mode` enum. -/
inductive Mode where
  | Overwrite : Mode
  | Ensure : Mode
deriving DecidableEq

/-- Paths are modelled as lists of components; `Path::display` joins them
with `/`. -/
def display_path : List String → String
  | [] => ""
  | [x] => x
  | x :: xs => x ++ "/" ++ display_path xs

/-- Embedding of `Path::strip_prefix`: succeeds exactly when `root` is a
leading run of `path`'s components. -/
def path_strip (root path : List String) : Option (List String) :=
  if root.isPrefixOf path = true then some (path.drop root.length) else none

/-- Outcome of one run of `update`: the target file's content afterwards,
whether `write_file` was called, and the returned `Result`. -/
structure UpdateRun where
  fs : Option String
  wrote : Bool
  result : Except String Unit

/-- The write-and-report tail of `update` (reached when the existing
content is absent or differs after normalization): write the new
contents, then fail with the root-relative path under `Ensure`. -/
def update_write (root path : List String) (contents : String)
    (mode : Mode) : UpdateRun :=
  let return_error : Bool :=
    match mode with
    | Mode.Overwrite => false
    | Mode.Ensure => true
  if return_error = true then
    let p := (path_strip root path).getD path
    { fs := some contents, wrote := true,
      result := Except.error
        ("`" ++ display_path p ++ "` was not up-to-date, updating") }
  else
    { fs := some contents, wrote := true, result := Except.ok () }

/-- `update(path, contents, mode)` over the modelled file system `fs`
(the optional readable content at `path`; `none` = missing/unreadable). -/
def update (root path : List String) (fs : Option String)
    (contents : String) (mode : Mode) : UpdateRun :=
  match fs with
  | some old_contents =>
    if normalize old_contents = normalize contents then
      { fs := some old_contents, wrote := false, result := Except.ok () }
    else
      update_write root path contents mode
  | none => update_write root path contents mode

/-- The `PREAMBLE` constant. -/
def PREAMBLE : String := "Generated file, do not edit by hand, see `xtask/src/codegen`"

/-- `reformat(text)`, with the external `rustfmt` pipe injected as a
function (spec section 9): on success the output is the `//!` preamble
line, a blank line, the formatted text, and a trailing newline. -/
def reformat (rustfmt : String → Except String String)
    (text : String) : Except String String :=
  match rustfmt text with
  | Except.error e => Except.error e
  | Except.ok stdout =>
    Except.ok ("//! " ++ PREAMBLE ++ "\n\n" ++ stdout ++ "\n")

/-- The `Location` struct (file path as components, 1-based line). -/
structure Location where
  file : List String
  line : Nat

/-- `Location`'s `Display::fmt` against project root `root`: `none`
models the `unwrap` panic when `file` is not under the root (or has no
final component). -/
def Location.fmt (root : List String) (loc : Location) : Option String :=
  match path_strip root loc.file with
  | none => none
  | some rel =>
    let path := String.mk ((display_path rel).data.map
      (fun c => if c = '\\' then '/' else c))
    match loc.file.getLast? with
    | none => none
    | some name =>
      some ("https://github.com/rust-analyzer/rust-analyzer/blob/master/"
        ++ path ++ "#L" ++ toString loc.line ++ "[" ++ name ++ "]")

/-! ### Helper lemmas -/

theorem starts_with_append (a b : String) : starts_with (a ++ b) a = true := by
  obtain ⟨la⟩ := a
  obtain ⟨lb⟩ := b
  show la.isPrefixOf (la ++ lb) = true
  exact List.isPrefixOf_iff_prefix.mpr (List.prefix_append la lb)

theorem do_go_nonempty (allow : Bool) :
    ∀ (lines : List String) (line_num : Nat) (block : Nat × List String)
      (res : List (Nat × List String)),
      (∀ b ∈ res, b.2 ≠ []) →
      ∀ b ∈ do_go allow lines line_num block res, b.2 ≠ [] := by
  intro lines
  induction lines with
  | nil =>
    intro line_num block res hres b hb
    simp only [do_go] at hb
    by_cases hbl : block.2 = []
    · rw [if_pos hbl] at hb
      exact hres b hb
    · rw [if_neg hbl] at hb
      rcases List.mem_append.mp hb with h | h
      · exact hres b h
      · rw [List.mem_singleton.mp h]
        exact hbl
  | cons raw rest ih =>
    intro line_num block res hres b hb
    simp only [do_go] at hb
    by_cases h1 : rust_trim_start raw = "//" ∧ allow = true
    · rw [if_pos h1] at hb
      exact ih _ _ _ hres b hb
    · rw [if_neg h1] at hb
      by_cases h2 : starts_with (rust_trim_start raw) "// " = true
      · rw [if_pos h2] at hb
        exact ih _ _ _ hres b hb
      · rw [if_neg h2] at hb
        refine ih _ _ _ ?_ b hb
        intro c hc
        by_cases hbl : block.2 = []
        · rw [if_pos hbl] at hc
          exact hres c hc
        · rw [if_neg hbl] at hc
          rcases List.mem_append.mp hc with h | h
          · exact hres c h
          · rw [List.mem_singleton.mp h]
            exact hbl

theorem processBlocks_isSome (tagc : String) :
    ∀ (l : List (Nat × List String)), (∀ b ∈ l, b.2 ≠ []) →
      (processBlocks tagc l).isSome = true := by
  intro l
  induction l with
  | nil => intro _; rfl
  | cons p rest ih =>
    intro h
    obtain ⟨line, block⟩ := p
    have hne : block ≠ [] := h (line, block) (List.mem_cons_self _ _)
    have hrest : (processBlocks tagc rest).isSome = true :=
      ih (fun b hbm => h b (List.mem_cons_of_mem _ hbm))
    obtain ⟨tail, htail⟩ := Option.isSome_iff_exists.mp hrest
    match block, hne with
    | first :: contents, _ =>
      simp only [processBlocks, htail]
      split <;> rfl

theorem do_go_no_bare :
    ∀ (lines : List String), (∀ l ∈ lines, rust_trim_start l ≠ "//") →
    ∀ (line_num : Nat) (block : Nat × List String)
      (res : List (Nat × List String)),
      do_go true lines line_num block res = do_go false lines line_num block res := by
  intro lines
  induction lines with
  | nil => intro _ _ _ _; rfl
  | cons raw rest ih =>
    intro h line_num block res
    have hraw : rust_trim_start raw ≠ "//" := h raw (List.mem_cons_self _ _)
    have hrest : ∀ l ∈ rest, rust_trim_start l ≠ "//" :=
      fun l hl => h l (List.mem_cons_of_mem _ hl)
    by_cases h2 : starts_with (rust_trim_start raw) "// " = true
    · simp only [do_go, hraw, h2, if_true, if_false, false_and, and_false,
        and_true, ite_false, ite_true]
      exact ih hrest _ _ _
    · simp only [do_go, hraw, h2, if_true, if_false, false_and, and_false,
        and_true, ite_false, ite_true]
      exact ih hrest _ _ _

theorem do_go_all_bare :
    ∀ (lines : List String), (∀ l ∈ lines, l = "//") →
    ∀ (b0 line_num : Nat) (acc : List String)
      (res : List (Nat × List String)),
      do_go true lines line_num (b0, acc) res =
        if acc ++ List.replicate lines.length "" = [] then res
        else res ++ [(b0, acc ++ List.replicate lines.length "")] := by
  intro lines
  induction lines with
  | nil =>
    intro _ b0 line_num acc res
    simp [do_go]
  | cons raw rest ih =>
    intro h b0 line_num acc res
    have hraw : raw = "//" := h raw (List.mem_cons_self _ _)
    subst hraw
    have hbare : rust_trim_start "//" = "//" := rfl
    simp only [do_go, hbare, if_true, and_true, ite_true, eq_self_iff_true]
    rw [ih (fun l hl => h l (List.mem_cons_of_mem _ hl)) b0 (line_num + 1)
      (acc ++ [""]) res]
    simp [List.replicate_succ, List.append_assoc]

theorem update_write_fields (root path : List String) (contents : String)
    (mode : Mode) :
    (update_write root path contents mode).fs = some contents ∧
    (update_write root path contents mode).wrote = true := by
  cases mode <;> exact ⟨rfl, rfl⟩

theorem update_matching (root path : List String) (c contents : String)
    (mode : Mode) (h : normalize c = normalize contents) :
    update root path (some c) contents mode =
      { fs := some c, wrote := false, result := Except.ok () } := by
  simp [update, h]

theorem update_differing (root path : List String) (c contents : String)
    (mode : Mode) (h : normalize c ≠ normalize contents) :
    update root path (some c) contents mode =
      update_write root path contents mode := by
  simp [update, h]

theorem str_append_assoc (a b c : String) : (a ++ b) ++ c = a ++ (b ++ c) := by
  obtain ⟨la⟩ := a
  obtain ⟨lb⟩ := b
  obtain ⟨lc⟩ := c
  show String.mk ((la ++ lb) ++ lc) = String.mk (la ++ (lb ++ lc))
  rw [List.append_assoc]

theorem update_fs_normalized (root path : List String) (fs : Option String)
    (contents : String) (mode : Mode) :
    ∃ c, (update root path fs contents mode).fs = some c ∧
      normalize c = normalize contents ∧
      ((update root path fs contents mode).wrote = true → c = contents) := by
  rcases fs with _ | old
  · exact ⟨contents, (update_write_fields root path contents mode).1, rfl,
      fun _ => rfl⟩
  · by_cases h : normalize old = normalize contents
    · rw [update_matching root path old contents mode h]
      exact ⟨old, rfl, h, fun hw => Bool.noConfusion hw⟩
    · rw [update_differing root path old contents mode h]
      exact ⟨contents, (update_write_fields root path contents mode).1, rfl,
        fun _ => rfl⟩

/-! ### Claims -/

/-- C1: evaluating the tag-aware extraction on the example document yields
exactly one block with identifier "widgets" and contents
["first line", "second line"], but its start line is 0, not 1: the
accumulator's start line is initialized to 0, off by one against the
scanner's 1-based numbering of every block after a terminator. -/
theorem c1_section_example :
    extract_comment_blocks_with_empty_lines "Section"
      "// Section: widgets\n// first line\n// second line\nnon_comment();\n" =
      some [{ id := "widgets", line := 0,
              contents := ["first line", "second line"] }] := by
  rfl

/-- C5: Ensure mode on a missing file writes the generated contents,
reports the write, and returns a staleness error whose message names the
path, rendered root-relative when the project root is a prefix of it. -/
theorem c5_ensure_missing_file (root path : List String) (contents : String) :
    (update root path none contents Mode.Ensure).fs = some contents ∧
    (update root path none contents Mode.Ensure).wrote = true ∧
    (update root path none contents Mode.Ensure).result =
      Except.error ("`" ++ display_path ((path_strip root path).getD path) ++
        "` was not up-to-date, updating") ∧
    (root.isPrefixOf path = true →
      (path_strip root path).getD path = path.drop root.length) := by
  refine ⟨rfl, rfl, rfl, fun h => ?_⟩
  simp [path_strip, h]

/-- C5 witness: a concrete missing-file Ensure run, with the root a
prefix of the path. -/
theorem c5_ensure_missing_file_witness :
    (update ["r"] ["r", "f.rs"] none "c" Mode.Ensure).result =
      Except.error ("`" ++
        display_path ((path_strip ["r"] ["r", "f.rs"]).getD ["r", "f.rs"]) ++
        "` was not up-to-date, updating") ∧
    (path_strip ["r"] ["r", "f.rs"]).getD ["r", "f.rs"] =
      (["r", "f.rs"] : List String).drop (["r"] : List String).length :=
  ⟨(c5_ensure_missing_file ["r"] ["r", "f.rs"] "c").2.2.1,
   (c5_ensure_missing_file ["r"] ["r", "f.rs"] "c").2.2.2 (by decide)⟩

/-- C6: when the existing content differs from the generated content only
up to CRLF-to-LF normalization, update leaves the file untouched,
performs no write and succeeds, in either mode. -/
theorem c6_line_ending_tolerance (root path : List String)
    (old contents : String) (mode : Mode)
    (h : normalize old = normalize contents) :
    update root path (some old) contents mode =
      { fs := some old, wrote := false, result := Except.ok () } :=
  update_matching root path old contents mode h

/-- C6 witness: CRLF on disk versus LF generated, in both modes. -/
theorem c6_line_ending_tolerance_witness :
    update [] ["f"] (some "x\r\n") "x\n" Mode.Ensure =
      { fs := some "x\r\n", wrote := false, result := Except.ok () } ∧
    update [] ["f"] (some "x\r\n") "x\n" Mode.Overwrite =
      { fs := some "x\r\n", wrote := false, result := Except.ok () } :=
  ⟨c6_line_ending_tolerance [] ["f"] "x\r\n" "x\n" Mode.Ensure (by decide),
   c6_line_ending_tolerance [] ["f"] "x\r\n" "x\n" Mode.Overwrite (by decide)⟩

/-- C7: a block whose first content line is "Foo: bar" is captured by a
scan for tag "Foo" with identifier "bar", but not by a scan for
tag "Bar". -/
theorem c7_tag_filtering :
    extract_comment_blocks_with_empty_lines "Foo" "// Foo: bar\n" =
      some [{ id := "bar", line := 0, contents := [] }] ∧
    extract_comment_blocks_with_empty_lines "Bar" "// Foo: bar\n" =
      some [] :=
  ⟨rfl, rfl⟩

/-- C8: every block emitted by the comment scanner (under either
continuation flag) has non-empty contents, so the tagged parser's removal
of each block's first line never operates on an empty list: for a valid
tag the whole extraction completes without the remove-on-empty panic. -/
theorem c8_blocks_nonempty (text : String) (allow : Bool) :
    (∀ b ∈ do_extract_comment_blocks text allow, b.2 ≠ []) ∧
    (∀ tag, tag_starts_uppercase tag = true →
      (extract_comment_blocks_with_empty_lines tag text).isSome = true) := by
  constructor
  · exact do_go_nonempty allow (rust_lines text) 0 (0, []) []
      (fun b hb => absurd hb (List.not_mem_nil b))
  · intro tag h
    unfold extract_comment_blocks_with_empty_lines
    rw [if_pos h]
    exact processBlocks_isSome _ _
      (do_go_nonempty true (rust_lines text) 0 (0, []) []
        (fun b hb => absurd hb (List.not_mem_nil b)))

/-- C8 witness: a concrete emitted block is non-empty, and a concrete
valid-tag extraction completes. -/
theorem c8_blocks_nonempty_witness :
    ((0, ["a"]) : Nat × List String).2 ≠ [] ∧
    (extract_comment_blocks_with_empty_lines "Tag" "// a\nx").isSome = true :=
  ⟨(c8_blocks_nonempty "// a\nx" true).1 (0, ["a"]) (by decide),
   (c8_blocks_nonempty "// a\nx" true).2 "Tag" (by decide)⟩

/-- C9: a tag starting with an uppercase letter passes the validity
assertion and the extraction completes; a tag that does not start
uppercase aborts (modelled as `none`) instead of returning an error
value; and rendering a Location whose file is not under the project root
aborts as well. -/
theorem c9_preconditions (tag text : String) (root : List String)
    (loc : Location) :
    (tag_starts_uppercase tag = true →
      (extract_comment_blocks_with_empty_lines tag text).isSome = true) ∧
    (tag_starts_uppercase tag = false →
      extract_comment_blocks_with_empty_lines tag text = none) ∧
    (root.isPrefixOf loc.file = false → Location.fmt root loc = none) := by
  refine ⟨fun h => ?_, fun h => ?_, fun h => ?_⟩
  · unfold extract_comment_blocks_with_empty_lines
    rw [if_pos h]
    exact processBlocks_isSome _ _
      (do_go_nonempty true (rust_lines text) 0 (0, []) []
        (fun b hb => absurd hb (List.not_mem_nil b)))
  · unfold extract_comment_blocks_with_empty_lines
    rw [if_neg (by simp [h])]
  · simp [Location.fmt, path_strip, h]

/-- C9 witness: a valid tag completes, an invalid tag aborts, and a
Location outside the root aborts. -/
theorem c9_preconditions_witness :
    (extract_comment_blocks_with_empty_lines "Foo" "// x\n").isSome = true ∧
    extract_comment_blocks_with_empty_lines "foo" "// x\n" = none ∧
    Location.fmt ["a"] { file := ["b"], line := 1 } = none :=
  ⟨(c9_preconditions "Foo" "// x\n" [] ⟨[], 0⟩).1 (by decide),
   (c9_preconditions "foo" "// x\n" [] ⟨[], 0⟩).2.1 (by decide),
   (c9_preconditions "Q" "" ["a"] ⟨["b"], 1⟩).2.2 (by decide)⟩

/-- C10: with continuations enabled, a bare marker line contributes an
empty content entry even when no block is open: a document whose lines
are all bare markers yields exactly one emitted block whose contents are
all empty strings; and emitted contents can begin with empty strings. -/
theorem c10_bare_marker_document (text : String) (n : Nat)
    (h : rust_lines text = List.replicate n "//") (hn : n ≠ 0) :
    do_extract_comment_blocks text true = [(0, List.replicate n "")] ∧
    do_extract_comment_blocks "//\n// a" true = [(0, ["", "a"])] := by
  constructor
  · unfold do_extract_comment_blocks
    rw [h]
    rw [do_go_all_bare (List.replicate n "//")
      (fun l hl => List.eq_of_mem_replicate hl) 0 0 [] []]
    have hne : ¬ (([] : List String) ++ List.replicate n "" = []) := by
      simp only [List.nil_append]
      intro heq
      exact hn (by simpa using congrArg List.length heq)
    rw [if_neg (by simpa using hne)]
    simp
  · rfl

/-- C10 witness: two bare marker lines yield one block of two empty
strings. -/
theorem c10_bare_marker_document_witness :
    do_extract_comment_blocks "//\n//" true = [(0, List.replicate 2 "")] :=
  (c10_bare_marker_document "//\n//" 2 (by decide) (by decide)).1

/-- C2 counterexample: with existing content "a\r\n" and generated
content "a\n" (equal after normalization), running update twice performs
zero writes, not exactly one, and the final bytes "a\r\n" are not equal
to the normalized generated content "a\n". -/
theorem c2_counterexample :
    (update [] ["f"] (some "a\r\n") "a\n" Mode.Overwrite).wrote = false ∧
    (update [] ["f"]
      ((update [] ["f"] (some "a\r\n") "a\n" Mode.Overwrite).fs) "a\n"
      Mode.Overwrite).wrote = false ∧
    (update [] ["f"]
      ((update [] ["f"] (some "a\r\n") "a\n" Mode.Overwrite).fs) "a\n"
      Mode.Overwrite).fs = some "a\r\n" ∧
    normalize "a\r\n" = normalize "a\n" ∧
    ¬ (("a\r\n" : String) = normalize "a\n") :=
  ⟨rfl, rfl, rfl, rfl, by decide⟩

/-- C2 (amended): running update twice with the same generated content
performs at most one write — the second run always reads content
normalize-equal to the generated content, performs no write and
succeeds, leaving the file unchanged; after both runs the file content
is normalize-equal to the generated content, and equal to it exactly
whenever the first run actually wrote. -/
theorem c2_update_idempotent (root path : List String) (fs : Option String)
    (contents : String) (mode : Mode) :
    (update root path (update root path fs contents mode).fs contents
      mode).wrote = false ∧
    (update root path (update root path fs contents mode).fs contents
      mode).result = Except.ok () ∧
    (update root path (update root path fs contents mode).fs contents
      mode).fs = (update root path fs contents mode).fs ∧
    Option.map normalize (update root path fs contents mode).fs =
      some (normalize contents) ∧
    ((update root path fs contents mode).wrote = true →
      (update root path fs contents mode).fs = some contents) := by
  obtain ⟨c, hfs, hnorm, hwrote⟩ :=
    update_fs_normalized root path fs contents mode
  rw [hfs, update_matching root path c contents mode hnorm]
  exact ⟨rfl, rfl, rfl, by simp [hnorm], fun hw => by rw [hwrote hw]⟩

/-- C2 witness: a concrete double run of update on a missing file. -/
theorem c2_update_idempotent_witness :
    (update [] ["f"]
      ((update [] ["f"] none "a\n" Mode.Ensure).fs) "a\n"
      Mode.Ensure).wrote = false ∧
    Option.map normalize (update [] ["f"] none "a\n" Mode.Ensure).fs =
      some (normalize "a\n") :=
  ⟨(c2_update_idempotent [] ["f"] none "a\n" Mode.Ensure).1,
   (c2_update_idempotent [] ["f"] none "a\n" Mode.Ensure).2.2.2.1⟩

/-- C3 counterexample: with the identity formatter, the output for "x"
begins with the doc-comment line "//! Generated ...", and does not begin
with the claimed plain-comment line "// Generated file, do not edit by
hand, see ". -/
theorem c3_counterexample :
    reformat (fun s => Except.ok s) "x" =
      Except.ok
        "//! Generated file, do not edit by hand, see `xtask/src/codegen`\n\nx\n" ∧
    starts_with
      "//! Generated file, do not edit by hand, see `xtask/src/codegen`\n\nx\n"
      "// Generated file, do not edit by hand, see " = false :=
  ⟨rfl, by decide⟩

/-- C3 (amended): every successful output of the format pipe is the
preamble line "//! Generated file, do not edit by hand, see
`xtask/src/codegen`" followed by a blank line, the formatter's output,
and a trailing newline; in particular it starts with that preamble line
and the blank line. -/
theorem c3_reformat_preamble (rustfmt : String → Except String String)
    (text out : String) (h : reformat rustfmt text = Except.ok out) :
    starts_with out ("//! " ++ PREAMBLE ++ "\n\n") = true ∧
    ∃ stdout, rustfmt text = Except.ok stdout ∧
      out = "//! " ++ PREAMBLE ++ "\n\n" ++ stdout ++ "\n" := by
  unfold reformat at h
  cases hf : rustfmt text with
  | error e => rw [hf] at h; cases h
  | ok stdout =>
    rw [hf] at h
    cases h
    constructor
    · rw [str_append_assoc ("//! " ++ PREAMBLE ++ "\n\n") stdout "\n"]
      exact starts_with_append ("//! " ++ PREAMBLE ++ "\n\n") (stdout ++ "\n")
    · exact ⟨stdout, rfl, rfl⟩

/-- C3 witness: the amended statement at the identity formatter on
input "x". -/
theorem c3_reformat_preamble_witness :
    starts_with
      "//! Generated file, do not edit by hand, see `xtask/src/codegen`\n\nx\n"
      ("//! " ++ PREAMBLE ++ "\n\n") = true ∧
    ∃ stdout,
      (fun s => (Except.ok s : Except String String)) "x" = Except.ok stdout ∧
      "//! Generated file, do not edit by hand, see `xtask/src/codegen`\n\nx\n" =
        "//! " ++ PREAMBLE ++ "\n\n" ++ stdout ++ "\n" :=
  c3_reformat_preamble (fun s => Except.ok s) "x"
    "//! Generated file, do not edit by hand, see `xtask/src/codegen`\n\nx\n" rfl

/-- C4 counterexample: the document "// a\n//\n// b\n" contains a bare
marker line, yet the disabled-scan block (0, ["a"]) is not among the
enabled-scan blocks — the enabled scan merges the two disabled-scan
blocks into one, so its block list is not a superset. -/
theorem c4_counterexample :
    ("//" ∈ rust_lines "// a\n//\n// b\n") ∧
    (0, ["a"]) ∈ do_extract_comment_blocks "// a\n//\n// b\n" false ∧
    ¬ ((0, ["a"]) ∈ do_extract_comment_blocks "// a\n//\n// b\n" true) := by
  decide

/-- C4 (amended): continuation-enabled scanning never breaks a block at a
bare comment-marker line — such a line only appends an empty content
entry to the open accumulator, emitting nothing and resetting nothing;
and on documents without bare marker lines the two scans produce exactly
the same blocks. (When bare marker lines are present the enabled scan
can merge adjacent disabled-scan blocks, so its block list is not in
general a superset of the disabled scan's.) -/
theorem c4_continuation_no_break (raw : String) (rest : List String)
    (line_num : Nat) (block : Nat × List String)
    (res : List (Nat × List String)) (text : String)
    (hbare : rust_trim_start raw = "//")
    (hnone : ∀ l ∈ rust_lines text, rust_trim_start l ≠ "//") :
    do_go true (raw :: rest) line_num block res =
      do_go true rest (line_num + 1) (block.1, block.2 ++ [""]) res ∧
    do_extract_comment_blocks text true =
      do_extract_comment_blocks text false := by
  constructor
  · simp only [do_go, hbare, if_true, and_true, and_self, ite_true,
      eq_self_iff_true]
  · unfold do_extract_comment_blocks
    exact do_go_no_bare (rust_lines text) hnone 0 (0, []) []

/-- C4 witness: the no-break step at a concrete bare marker line, and
scan agreement on a concrete document without bare marker lines. -/
theorem c4_continuation_no_break_witness :
    do_go true ["//"] 0 (0, ["a"]) [] =
      do_go true [] 1 (0, ["a"] ++ [""]) [] ∧
    do_extract_comment_blocks "// a" true =
      do_extract_comment_blocks "// a" false := by
  have h := c4_continuation_no_break "//" [] 0 (0, ["a"]) [] "// a"
    (by decide) (by decide)
  exact ⟨h.1, h.2⟩

end Codegen
